import Mathlib

/-!
Shallow embedding of the to-do-list core of the web application
(to-do state container, note state container, pagination view,
and persistent store adapter) together with proofs of its
specified properties.

Conventions of the embedding:
* JavaScript arrays become `List`s; `[x, ...xs]` becomes `x :: xs`;
  `Array.prototype.map/filter/slice` become `List.map/filter/take`.
* The impure inputs of the hooks (the current clock reading
  `new Date().toISOString()`, the freshly generated identifier, and
  the current date string) are passed as explicit arguments.
* `throw new Error(msg)` becomes `Except.error msg`.
* The platform JSON codec (`JSON.stringify` / `JSON.parse`) is passed
  as an explicit `stringify` / `parse` pair; `JSON.parse` throwing is
  modelled by `parse` returning `none`.
-/

set_option autoImplicit false

namespace TodoApp

/-- Task record, from `src/types/todo.ts` (`interface Todo`). -/
structure Todo where
  id : String
  text : String
  completed : Bool
  createdAt : String
  updatedAt : String
  deriving Repr, DecidableEq

/-- Filter selector, from `src/types/todo.ts` (`type FilterType`). -/
inductive FilterType where
  | all
  | active
  | completed
  deriving Repr, DecidableEq

/-- Note record, from `src/types/todo.ts` (`interface Note`). -/
structure Note where
  id : String
  content : String
  date : String
  createdAt : String
  updatedAt : String
  convertedToTodo : Bool
  deriving Repr, DecidableEq

/-- The whitespace characters relevant to JavaScript
`String.prototype.trim` in this code base. -/
def isWsChar (c : Char) : Bool :=
  c == ' ' || c == '\t' || c == '\n' || c == '\r'

/-- JavaScript `s.trim()`: strip whitespace from both ends.
(Defined over the character list so the kernel can evaluate it;
`String.trim` itself is defined by well-founded recursion on byte
positions and does not reduce.) -/
def jsTrim (s : String) : String :=
  ⟨((s.data.dropWhile isWsChar).reverse.dropWhile isWsChar).reverse⟩

/-- ASCII lowercasing of one character, the fragment of JavaScript
`String.prototype.toLowerCase` these sources rely on. -/
def lowerChar (c : Char) : Char :=
  if c.toNat ≥ 65 ∧ c.toNat ≤ 90 then Char.ofNat (c.toNat + 32) else c

/-- JavaScript `s.toLowerCase()` (ASCII fragment). -/
def jsToLower (s : String) : String :=
  ⟨s.data.map lowerChar⟩

/-- Split a character list at `'-'` separators, as
`"y-m-d".split("-")` / `String.splitOn "-"` would. -/
def splitDash (l : List Char) : List (List Char) :=
  l.foldr
    (fun c acc =>
      if c == '-' then [] :: acc
      else
        match acc with
        | h :: t => (c :: h) :: t
        | [] => [[c]])
    [[]]

/-- Parse a non-empty all-digit character list as a natural number
(the fragment of numeric date-field parsing `new Date("YYYY-MM-DD…")`
performs). -/
def digitsToNat? (l : List Char) : Option Nat :=
  if l ≠ [] ∧ l.all Char.isDigit then
    some (l.foldl (fun n c => n * 10 + (c.toNat - 48)) 0)
  else none

/-- Does the character list `s` start with `p`?  Embeds the prefix test
underlying JavaScript `String.prototype.includes`. -/
def headMatch : List Char → List Char → Bool
  | [], _ => true
  | _ :: _, [] => false
  | c :: cs, d :: ds => c == d && headMatch cs ds

/-- Does `sub` occur contiguously inside the character list? -/
def hasSub (sub : List Char) : List Char → Bool
  | [] => headMatch sub []
  | c :: t => headMatch sub (c :: t) || hasSub sub t

/-- JavaScript `s.includes(sub)`: substring containment (an empty
`sub` is contained in every string). -/
def strIncludes (s sub : String) : Bool :=
  hasSub sub.data s.data

/-- Embeds `addTodo` from `src/hooks/useTodos.ts`: trim, ignore empty input,
otherwise prepend a fresh record.  `newId` is the result of
`generateId()` and `now` of `new Date().toISOString()`. -/
def addTodo (newId now text : String) (prev : List Todo) : List Todo :=
  let trimmedText := jsTrim text
  if trimmedText = "" then prev
  else
    { id := newId, text := trimmedText, completed := false,
      createdAt := now, updatedAt := now } :: prev

/-- Embeds `toggleTodo` from `src/hooks/useTodos.ts`: flip `completed` of the
matching record and refresh its `updatedAt`. -/
def toggleTodo (now id : String) (prev : List Todo) : List Todo :=
  prev.map fun todo =>
    if todo.id = id then
      { todo with completed := !todo.completed, updatedAt := now }
    else todo

/-- Embeds `deleteTodo` from `src/hooks/useTodos.ts`. -/
def deleteTodo (id : String) (prev : List Todo) : List Todo :=
  prev.filter fun todo => todo.id != id

/-- Embeds `editTodo` from `src/hooks/useTodos.ts`: trim, ignore empty input,
otherwise replace the text of the matching record. -/
def editTodo (now id newText : String) (prev : List Todo) : List Todo :=
  let trimmedText := jsTrim newText
  if trimmedText = "" then prev
  else
    prev.map fun todo =>
      if todo.id = id then
        { todo with text := trimmedText, updatedAt := now }
      else todo

/-- Embeds `clearCompleted` from `src/hooks/useTodos.ts`. -/
def clearCompleted (prev : List Todo) : List Todo :=
  prev.filter fun todo => !todo.completed

/-- The status test inlined in `filteredTodos` (step 1 of the chain in
`src/hooks/useTodos.ts`). -/
def statusPass (filter : FilterType) (todo : Todo) : Bool :=
  match filter with
  | .active => !todo.completed
  | .completed => todo.completed
  | .all => true

/-- Embeds `filteredTodos` from `src/hooks/useTodos.ts`: filter by status,
then by case-insensitive search-substring. -/
def filteredTodos (filter : FilterType) (searchQuery : String)
    (todos : List Todo) : List Todo :=
  (todos.filter (statusPass filter)).filter fun todo =>
    strIncludes (jsToLower todo.text) (jsToLower searchQuery)

/-- The `stats` record of `src/hooks/useTodos.ts`. -/
structure TodoStats where
  total : Nat
  active : Nat
  completed : Nat
  deriving Repr, DecidableEq

/-- Embeds `stats` from `src/hooks/useTodos.ts`: counts over the unfiltered
list. -/
def stats (todos : List Todo) : TodoStats :=
  { total := todos.length,
    active := (todos.filter fun t => !t.completed).length,
    completed := (todos.filter fun t => t.completed).length }

/-- Embeds `addNote` from `src/hooks/useNotes.ts`: trim, throw on empty
content, otherwise prepend a fresh record dated `today` (the result of
`getTodayDate()`).  Returns the new list; the thrown `Error` becomes
`Except.error`. -/
def addNote (newId today now content : String) (prev : List Note) :
    Except String (List Note) :=
  let trimmedContent := jsTrim content
  if trimmedContent = "" then .error "Konten catatan tidak boleh kosong"
  else
    .ok ({ id := newId, content := trimmedContent, date := today,
           createdAt := now, updatedAt := now,
           convertedToTodo := false } :: prev)

/-- Embeds `updateNote` from `src/hooks/useNotes.ts`: trim, throw on empty
content (before any lookup), otherwise replace the content of the
matching record. -/
def updateNote (now id content : String) (prev : List Note) :
    Except String (List Note) :=
  let trimmedContent := jsTrim content
  if trimmedContent = "" then .error "Konten catatan tidak boleh kosong"
  else
    .ok (prev.map fun note =>
      if note.id = id then
        { note with content := trimmedContent, updatedAt := now }
      else note)

/-- Embeds `deleteNote` from `src/hooks/useNotes.ts`. -/
def deleteNote (id : String) (prev : List Note) : List Note :=
  prev.filter fun note => note.id != id

/-- Embeds `markAsConverted` from `src/hooks/useNotes.ts`. -/
def markAsConverted (now id : String) (prev : List Note) : List Note :=
  prev.map fun note =>
    if note.id = id then
      { note with convertedToTodo := true, updatedAt := now }
    else note

/-- The Indonesian weekday names of `getDayName` in
`src/components/todo/NotesSearch.tsx` (index 0 = Sunday, matching
JavaScript `Date.prototype.getDay`). -/
def dayNames : List String :=
  ["Minggu", "Senin", "Selasa", "Rabu", "Kamis", "Jumat", "Sabtu"]

/-- The Sakamoto lookup table for the day-of-week computation. -/
def sakamotoTable : List Nat := [0, 3, 2, 5, 0, 3, 5, 1, 4, 6, 2, 4]

/-- Day of week of the Gregorian date `y-m-d` with 0 = Sunday, the
value JavaScript `new Date(s + "T00:00:00").getDay()` yields for a
valid `YYYY-MM-DD` string `s` (midnight local time preserves the civil
date, so the result is timezone-independent).  The Sakamoto formula. -/
def dayOfWeek (y m d : Nat) : Nat :=
  let y' := if m < 3 then y - 1 else y
  (y' + y' / 4 + y' / 400 + sakamotoTable.getD (m - 1) 0 + d - y' / 100) % 7

/-- Embeds `getDayName` from `src/components/todo/NotesSearch.tsx`: the
localized weekday name of a `YYYY-MM-DD` date string (`""` when the
string does not parse as a date, in which case the JavaScript original
indexes `days` with `NaN` and yields `undefined`). -/
def getDayName (dateString : String) : String :=
  match (splitDash dateString.data).map digitsToNat? with
  | [some y, some m, some d] => dayNames.getD (dayOfWeek y m d) ""
  | _ => ""

/-- The match test inlined in `filteredNotes` of
`src/components/todo/NotesSearch.tsx`: date substring, or weekday-name
substring (case-insensitive), or content substring (case-insensitive).
`query` is the already lowercased and trimmed search text. -/
def noteMatches (query : String) (note : Note) : Bool :=
  strIncludes note.date query
    || strIncludes (jsToLower (getDayName note.date)) query
    || strIncludes (jsToLower note.content) query

/-- Embeds `filteredNotes` from `src/components/todo/NotesSearch.tsx`:
a blank query returns all notes, otherwise keep the notes matched by
the lowercased, trimmed query. -/
def filteredNotes (searchQuery : String) (notes : List Note) : List Note :=
  if jsTrim searchQuery = "" then notes
  else
    let query := jsTrim (jsToLower searchQuery)
    notes.filter (noteMatches query)

/-- Embeds `totalPages` from `src/hooks/usePagination.ts`:
`Math.ceil(allItems.length / ITEMS_PER_PAGE)` over naturals
(`n` is the source length, `itemsPerPage` is positive in every use). -/
def totalPages (n itemsPerPage : Nat) : Nat :=
  (n + itemsPerPage - 1) / itemsPerPage

/-- Embeds `displayedItems` from `src/hooks/usePagination.ts`:
`allItems.slice(0, currentPage * ITEMS_PER_PAGE)`. -/
def displayedItems {α : Type} (allItems : List α)
    (itemsPerPage currentPage : Nat) : List α :=
  allItems.take (currentPage * itemsPerPage)

/-- Embeds `remainingItems` from `src/hooks/usePagination.ts`. -/
def remainingItems {α : Type} (allItems : List α)
    (itemsPerPage currentPage : Nat) : Nat :=
  allItems.length - (displayedItems allItems itemsPerPage currentPage).length

/-- Embeds `hasNextPage` from `src/hooks/usePagination.ts`:
`currentPage < totalPages`. -/
def hasNextPage (n itemsPerPage currentPage : Nat) : Bool :=
  decide (currentPage < totalPages n itemsPerPage)

/-- Embeds `loadMore` from `src/hooks/usePagination.ts`: advance one page,
clamped to `totalPages` of the source length `n` current at call
time. -/
def loadMore (n itemsPerPage currentPage : Nat) : Nat :=
  let nextPage := currentPage + 1
  if nextPage ≤ totalPages n itemsPerPage then nextPage else currentPage

/-- Embeds `showLess` from `src/hooks/usePagination.ts`: retreat one page,
clamped to a floor of 1. -/
def showLess (currentPage : Nat) : Nat :=
  let prevPage := currentPage - 1
  if prevPage ≥ 1 then prevPage else 1

/-- Embeds `reset` from `src/hooks/usePagination.ts`. -/
def resetPage : Nat := 1

/-- One user interaction with the pagination view.  `loadMore` carries
the length the source list has at the moment of the call (the hook
recomputes `totalPages` from the current list on every render); the
other two actions do not consult the source. -/
inductive PgEvent where
  | loadMore (srcLen : Nat)
  | showLess
  | reset
  deriving Repr, DecidableEq

/-- The pagination state machine: how one event transforms
`currentPage`. -/
def pgStep (itemsPerPage currentPage : Nat) : PgEvent → Nat
  | .loadMore n => loadMore n itemsPerPage currentPage
  | .showLess => showLess currentPage
  | .reset => resetPage

/-- The page reached from the initial state (`useState(1)`) after a
sequence of events. -/
def pgRun (itemsPerPage : Nat) (evs : List PgEvent) : Nat :=
  evs.foldl (fun page ev => pgStep itemsPerPage page ev) 1

/-- The platform key-value storage (`window.localStorage`), newest
binding first; `getItem` is `null`-returning lookup. -/
def getItem (store : List (String × String)) (key : String) : Option String :=
  (store.find? fun kv => kv.fst = key).map fun kv => kv.snd

/-- The lazy initial read of `useLocalStorage`
(`src/hooks/useLocalStorage.ts`): `item ? JSON.parse(item) : initialValue`,
with a parse failure caught and replaced by `initialValue`.  Note the
truthiness test: an empty stored string also falls back. -/
def readKey {α : Type} (parse : String → Option α)
    (store : List (String × String)) (key : String) (initialValue : α) : α :=
  match getItem store key with
  | none => initialValue
  | some item =>
    if item = "" then initialValue
    else
      match parse item with
      | some v => v
      | none => initialValue

/-- The storage half of `setValue` in `src/hooks/useLocalStorage.ts`:
`window.localStorage.setItem(key, JSON.stringify(valueToStore))`. -/
def writeKey {α : Type} (stringify : α → String)
    (store : List (String × String)) (key : String) (value : α) :
    List (String × String) :=
  (key, stringify value) :: store

/-- A `storage` event as delivered to the listener: `key` and
`newValue` are `null`-able in the DOM API. -/
structure StorageEvent where
  key : Option String
  newValue : Option String
  deriving Repr, DecidableEq

/-- Embeds `handleStorageChange` from `src/hooks/useLocalStorage.ts`:
`if (e.key === key && e.newValue) { try … setStoredValue(JSON.parse(e.newValue)) … }`.
`cur` is the in-memory state, returned unchanged when the guard fails
or the parse throws.  `e.newValue` must be truthy: non-`null` and
non-empty. -/
def handleStorageChange {α : Type} (parse : String → Option α)
    (key : String) (e : StorageEvent) (cur : α) : α :=
  match e.newValue with
  | none => cur
  | some s =>
    if e.key = some key ∧ s ≠ "" then
      match parse s with
      | some v => v
      | none => cur
    else cur

/-! ### Concrete sample records used by witnesses and counterexamples -/

/-- A completed sample task. -/
def doneTask : Todo :=
  { id := "i0", text := "old", completed := true,
    createdAt := "t", updatedAt := "t" }

/-- A pending sample task. -/
def openTask : Todo :=
  { id := "i0", text := "Buy milk", completed := false,
    createdAt := "t", updatedAt := "t" }

/-- A second pending sample task. -/
def otherTask : Todo :=
  { id := "i1", text := "y", completed := true,
    createdAt := "t", updatedAt := "t" }

/-- A sample note dated Monday 2025-01-20. -/
def mondayNote : Note :=
  { id := "n1", content := "Meeting pagi", date := "2025-01-20",
    createdAt := "2025-01-20T08:00:00.000Z",
    updatedAt := "2025-01-20T08:00:00.000Z", convertedToTodo := false }

/-! ### Helper lemmas -/

/-- A conditional rewrite maps a list to itself when no element
satisfies the condition. -/
lemma map_ite_eq_self {α : Type} (l : List α) (f : α → α) (p : α → Prop)
    [DecidablePred p] (h : ∀ a ∈ l, ¬ p a) :
    (l.map fun a => if p a then f a else a) = l := by
  induction l with
  | nil => rfl
  | cons x xs ih =>
    simp only [List.map_cons, List.cons.injEq]
    refine ⟨?_, ih fun a ha => h a (List.mem_cons_of_mem _ ha)⟩
    rw [if_neg (h x (List.mem_cons_self x xs))]

/-- Embeds `n ≤ ps * ⌈n / ps⌉` for the natural-number ceiling used by
`totalPages`. -/
lemma le_mul_totalPages (n ps : Nat) (hps : 0 < ps) :
    n ≤ ps * totalPages n ps := by
  unfold totalPages
  have h := Nat.div_add_mod (n + ps - 1) ps
  have hr : (n + ps - 1) % ps < ps := Nat.mod_lt _ hps
  set q := (n + ps - 1) / ps with hq
  set r := (n + ps - 1) % ps with hrd
  set k := ps * q with hk
  omega

/-- Embeds `ps * (⌈n / ps⌉ - 1) < n` when `n` is positive: `totalPages` is
the least sufficient page count. -/
lemma mul_totalPages_pred_lt (n ps : Nat) (hps : 0 < ps) (hn : 0 < n) :
    ps * (totalPages n ps - 1) < n := by
  unfold totalPages
  have h := Nat.div_add_mod (n + ps - 1) ps
  have hr : (n + ps - 1) % ps < ps := Nat.mod_lt _ hps
  set q := (n + ps - 1) / ps with hq
  set r := (n + ps - 1) % ps with hrd
  rcases Nat.eq_zero_or_pos q with hq0 | hq1
  · rw [hq0] at h ⊢
    simp only [Nat.mul_zero, Nat.zero_add] at h ⊢
    omega
  · have hqq : ps * (q - 1) + ps = ps * q := by
      calc ps * (q - 1) + ps = ps * (q - 1 + 1) := by ring
        _ = ps * q := by rw [Nat.sub_add_cancel hq1]
    set a := ps * (q - 1) with ha
    set b := ps * q with hb
    omega

/-- One page is always enough for a nonempty source. -/
lemma one_le_totalPages (n ps : Nat) (hps : 0 < ps) (hn : 0 < n) :
    1 ≤ totalPages n ps :=
  Nat.div_pos (by omega) hps

/-! ### C3: task creation -/

/-- C3.  Task create: `addTodo` trims its input; if the trimmed text is
empty the list is unchanged; otherwise exactly one new record is
prepended, carrying the trimmed text, `completed = false`, both
timestamps set to `now`, and (when the generated identifier is fresh,
as `generateId` is relied upon to produce) an identifier distinct from
the identifier of every existing record. -/
theorem addTodo_create_spec (newId now text : String) (prev : List Todo)
    (hid : newId ∉ prev.map Todo.id) :
    (jsTrim text = "" → addTodo newId now text prev = prev) ∧
    (jsTrim text ≠ "" →
      addTodo newId now text prev =
        { id := newId, text := jsTrim text, completed := false,
          createdAt := now, updatedAt := now } :: prev ∧
      ∀ t ∈ prev, t.id ≠ newId) := by
  constructor
  · intro h
    simp [addTodo, h]
  · intro h
    refine ⟨by simp [addTodo, h], fun t ht heq => hid ?_⟩
    exact heq ▸ List.mem_map_of_mem Todo.id ht

/-- Witness for C3 at a concrete input. -/
theorem addTodo_create_spec_witness :
    addTodo "i1" "t0" "  hello " [doneTask] =
      { id := "i1", text := "hello", completed := false,
        createdAt := "t0", updatedAt := "t0" } :: [doneTask] :=
  ((addTodo_create_spec "i1" "t0" "  hello " [doneTask]
      (by decide)).2 (by decide)).1

/-! ### C4: toggle involution -/

/-- C4.  Applying `toggleTodo` twice with the same identifier returns
the `completed` flag of every record to its original value (identifiers are
untouched as well); toggling an identifier not present in the list
leaves the list unchanged. -/
theorem toggleTodo_involution_spec (now1 now2 id : String) (l : List Todo) :
    ((toggleTodo now2 id (toggleTodo now1 id l)).map fun t => (t.id, t.completed))
      = (l.map fun t => (t.id, t.completed)) ∧
    (id ∉ l.map Todo.id → toggleTodo now1 id l = l) := by
  constructor
  · unfold toggleTodo
    rw [List.map_map, List.map_map]
    apply List.map_congr_left
    intro t _
    by_cases h : t.id = id <;> simp [Function.comp, h]
  · intro hid
    unfold toggleTodo
    apply map_ite_eq_self
    intro t ht heq
    exact hid (heq ▸ List.mem_map_of_mem Todo.id ht)

/-- Witness for C4 at a concrete input. -/
theorem toggleTodo_involution_spec_witness :
    toggleTodo "t9" "absent" [openTask] = [openTask] :=
  (toggleTodo_involution_spec "t9" "t9" "absent" [openTask]).2 (by decide)

/-! ### C5: clearCompleted -/

/-- C5.  After `clearCompleted` no record is completed, every
non-completed record of the input survives unchanged, and the
survivors appear in their original relative order (the result is a
sublist of the input). -/
theorem clearCompleted_spec (l : List Todo) :
    (∀ t ∈ clearCompleted l, t.completed = false) ∧
    (∀ t ∈ l, t.completed = false → t ∈ clearCompleted l) ∧
    List.Sublist (clearCompleted l) l := by
  refine ⟨fun t ht => ?_, fun t ht hc => ?_, List.filter_sublist l⟩
  · have := (List.mem_filter.mp ht).2
    simpa using this
  · exact List.mem_filter.mpr ⟨ht, by simp [hc]⟩

/-- Witness for C5 at a concrete input. -/
theorem clearCompleted_spec_witness :
    openTask ∈ clearCompleted [otherTask, openTask] :=
  (clearCompleted_spec [otherTask, openTask]).2.1 openTask
    (by decide) (by decide)

/-! ### C6: filtered view and counts -/

/-- C6.  The filtered view contains exactly the records that pass the
status selector and contain the search text case-insensitively, in
the order of the source list (a sublist); the counts are computed over the
unfiltered list: total length, non-completed count, completed count. -/
theorem filteredTodos_stats_spec (f : FilterType) (q : String) (l : List Todo) :
    (∀ t, t ∈ filteredTodos f q l ↔
      t ∈ l ∧ statusPass f t = true ∧
        strIncludes (jsToLower t.text) (jsToLower q) = true) ∧
    List.Sublist (filteredTodos f q l) l ∧
    (stats l).total = l.length ∧
    (stats l).active = (l.filter fun t => !t.completed).length ∧
    (stats l).completed = (l.filter fun t => t.completed).length := by
  refine ⟨fun t => ?_, ?_, rfl, rfl, rfl⟩
  · constructor
    · intro ht
      have h1 := List.mem_filter.mp ht
      have h2 := List.mem_filter.mp h1.1
      exact ⟨h2.1, h2.2, h1.2⟩
    · rintro ⟨h1, h2, h3⟩
      exact List.mem_filter.mpr ⟨List.mem_filter.mpr ⟨h1, h2⟩, h3⟩
  · exact (List.filter_sublist _).trans (List.filter_sublist l)

/-- Witness for C6 at a concrete input (the `iff` instantiated and its
forward use on a concrete member). -/
theorem filteredTodos_stats_spec_witness :
    openTask ∈ filteredTodos FilterType.active "MILK" [openTask] :=
  ((filteredTodos_stats_spec FilterType.active "MILK" [openTask]).1
      openTask).mpr ⟨by decide, by decide, by decide⟩

/-! ### C7: validation policy of the two containers -/

/-- C7, counterexample to the claim as stated.  `updateNote` is an
identifier-keyed operation, `"missing"` is not among the identifiers
of the list, yet the call signals an error instead of being a silent
no-op: empty-content validation runs before the identifier lookup. -/
theorem updateNote_missing_id_error_cex :
    "missing" ∉ [mondayNote].map Note.id ∧
    updateNote "t1" "missing" "   " [mondayNote] =
      Except.error "Konten catatan tidak boleh kosong" := by
  constructor
  · decide
  · rfl

/-- C7 as amended.  Empty-input policy per container: create in the task
container is a silent no-op while create and update in the note container
raise an error and leave the list unchanged;
identifier-keyed operations on a missing identifier are silent no-ops,
except that update on the note container still raises the empty-content
error when the new content is empty, because its validation precedes
the identifier lookup. -/
theorem validation_policy_spec (now newId today : String)
    (todos : List Todo) (notes : List Note) :
    (∀ c, jsTrim c = "" → addTodo newId now c todos = todos) ∧
    (∀ c, jsTrim c = "" →
      addNote newId today now c notes =
        Except.error "Konten catatan tidak boleh kosong" ∧
      ∀ i, updateNote now i c notes =
        Except.error "Konten catatan tidak boleh kosong") ∧
    (∀ i, i ∉ todos.map Todo.id →
      toggleTodo now i todos = todos ∧
      deleteTodo i todos = todos ∧
      ∀ c, editTodo now i c todos = todos) ∧
    (∀ i, i ∉ notes.map Note.id →
      deleteNote i notes = notes ∧
      markAsConverted now i notes = notes ∧
      ∀ c, jsTrim c ≠ "" → updateNote now i c notes = Except.ok notes) := by
  refine ⟨fun c hc => by simp [addTodo, hc],
    fun c hc => ⟨by simp [addNote, hc], fun i => by simp [updateNote, hc]⟩,
    fun i hi => ?_, fun i hi => ?_⟩
  · have hne : ∀ t ∈ todos, ¬ t.id = i := fun t ht heq =>
      hi (heq ▸ List.mem_map_of_mem Todo.id ht)
    refine ⟨map_ite_eq_self todos _ _ hne, ?_, fun c => ?_⟩
    · apply List.filter_eq_self.mpr
      intro t ht
      simpa using hne t ht
    · by_cases h : jsTrim c = ""
      · simp [editTodo, h]
      · simp only [editTodo]
        rw [if_neg h]
        exact map_ite_eq_self todos _ _ hne
  · have hne : ∀ n ∈ notes, ¬ n.id = i := fun n hn heq =>
      hi (heq ▸ List.mem_map_of_mem Note.id hn)
    refine ⟨?_, map_ite_eq_self notes _ _ hne, fun c hc => ?_⟩
    · apply List.filter_eq_self.mpr
      intro n hn
      simpa using hne n hn
    · simp only [updateNote]
      rw [if_neg hc, map_ite_eq_self notes _ _ hne]

/-- Witness for C7 (amended) at concrete inputs. -/
theorem validation_policy_spec_witness :
    addTodo "i9" "t1" "  " [openTask] = [openTask] ∧
    markAsConverted "t1" "missing" [mondayNote] = [mondayNote] ∧
    updateNote "t1" "missing" " x " [mondayNote] = Except.ok [mondayNote] := by
  have h := validation_policy_spec "t1" "i9" "2025-01-20" [openTask] [mondayNote]
  exact ⟨h.1 "  " (by decide),
    (h.2.2.2 "missing" (by decide)).2.1,
    (h.2.2.2 "missing" (by decide)).2.2 " x " (by decide)⟩

/-! ### C8: note search -/

/-- C8.  A blank query returns every note; a non-blank query keeps
exactly the notes whose date contains the lowercased, trimmed query,
or whose localized weekday name contains it case-insensitively, or
whose content contains it case-insensitively.  Concretely, the note
dated `2025-01-20` (weekday `Senin`, Monday) is matched by the queries
`"2025-01-20"`, `"senin"`, `"Senin"`, and case-insensitive content
substrings, and is not matched by an unrelated keyword. -/
theorem notes_search_spec :
    (∀ (notes : List Note) (q : String), jsTrim q = "" →
      filteredNotes q notes = notes) ∧
    (∀ (notes : List Note) (q : String), jsTrim q ≠ "" →
      ∀ n, n ∈ filteredNotes q notes ↔
        n ∈ notes ∧ noteMatches (jsTrim (jsToLower q)) n = true) ∧
    getDayName "2025-01-20" = "Senin" ∧
    filteredNotes "2025-01-20" [mondayNote] = [mondayNote] ∧
    filteredNotes "senin" [mondayNote] = [mondayNote] ∧
    filteredNotes "Senin" [mondayNote] = [mondayNote] ∧
    filteredNotes "eting pa" [mondayNote] = [mondayNote] ∧
    filteredNotes "MEETING" [mondayNote] = [mondayNote] ∧
    filteredNotes "belanja" [mondayNote] = [] := by
  refine ⟨fun notes q hq => by simp [filteredNotes, hq],
    fun notes q hq n => ?_, by decide, by decide, by decide, by decide,
    by decide, by decide, by decide⟩
  rw [filteredNotes, if_neg hq]
  exact List.mem_filter

/-- Witness for C8 at a concrete input (blank query returns the whole
list; the membership characterization instantiated). -/
theorem notes_search_spec_witness :
    filteredNotes "   " [mondayNote] = [mondayNote] ∧
    (mondayNote ∈ filteredNotes "pagi" [mondayNote] ↔
      mondayNote ∈ [mondayNote] ∧
        noteMatches (jsTrim (jsToLower "pagi")) mondayNote = true) :=
  ⟨notes_search_spec.1 [mondayNote] "   " (by decide),
   notes_search_spec.2.1 [mondayNote] "pagi" (by decide) mondayNote⟩

/-! ### C9: store adapter round-trip -/

/-- C9.  For a JSON-serializable value — one the platform codec
round-trips (`parse (stringify v) = some v`) and encodes to a
non-empty text, as `JSON.stringify` does for every serializable
value — writing then reading returns the value; reading a key that is
absent from storage, or whose stored text fails to decode, returns the
provided fallback. -/
theorem storage_roundtrip_spec {α : Type} (parse : String → Option α)
    (stringify : α → String)
    (hcodec : ∀ v, parse (stringify v) = some v)
    (hnonempty : ∀ v, stringify v ≠ "")
    (store : List (String × String)) (k : String) (v fallback : α) :
    readKey parse (writeKey stringify store k v) k fallback = v ∧
    (getItem store k = none → readKey parse store k fallback = fallback) ∧
    (∀ item, getItem store k = some item → parse item = none →
      readKey parse store k fallback = fallback) := by
  refine ⟨?_, fun h => ?_, fun item h hp => ?_⟩
  · have hget : getItem (writeKey stringify store k v) k = some (stringify v) := by
      simp [getItem, writeKey, List.find?]
    simp [readKey, hget, hnonempty v, hcodec v]
  · simp [readKey, h]
  · by_cases he : item = ""
    · simp [readKey, h, he]
    · simp [readKey, h, he, hp]

/-- The JSON encoding of a boolean, the fragment of `JSON.stringify`
needed for a concrete witness. -/
def boolStringify (b : Bool) : String :=
  if b then "true" else "false"

/-- The JSON decoding of a boolean (any other text fails to decode). -/
def boolParse (s : String) : Option Bool :=
  if s = "true" then some true
  else if s = "false" then some false
  else none

/-- Witness for C9 at a concrete input: a boolean round-trips through
the store, and reads of an unwritten key fall back. -/
theorem storage_roundtrip_spec_witness :
    readKey boolParse
        (writeKey boolStringify [("notes", "[]")] "todos" true)
        "todos" false = true ∧
    readKey boolParse [("notes", "[]")] "todos" false = false := by
  have h := storage_roundtrip_spec boolParse boolStringify
    (fun v => by cases v <;> rfl) (fun v => by cases v <;> decide)
    [("notes", "[]")] "todos" true false
  exact ⟨h.1, h.2.1 (by decide)⟩

/-! ### C10: external-change handler -/

/-- C10.  The storage-event handler updates local state only when the
event is for the key owned by the adapter and carries a non-null new value
that decodes; an external removal (`newValue = null`), an event for
another key, or an undecodable new value leaves the in-memory state
unchanged.  The hypothesis `parse "" = none` records that the empty
string is not valid JSON, so the truthiness test of the handler on
`e.newValue` skips exactly values that could not decode anyway. -/
theorem handle_storage_change_spec {α : Type} (parse : String → Option α)
    (key : String) (hpe : parse "" = none) (e : StorageEvent) (cur : α) :
    (e.newValue = none → handleStorageChange parse key e cur = cur) ∧
    (e.key ≠ some key → handleStorageChange parse key e cur = cur) ∧
    (∀ s, e.newValue = some s → parse s = none →
      handleStorageChange parse key e cur = cur) ∧
    (∀ s v, e.key = some key → e.newValue = some s → parse s = some v →
      handleStorageChange parse key e cur = v) := by
  refine ⟨fun h => by simp [handleStorageChange, h], fun h => ?_,
    fun s hs hp => ?_, fun s v hk hs hp => ?_⟩
  · cases hnv : e.newValue with
    | none => simp [handleStorageChange, hnv]
    | some s => simp [handleStorageChange, hnv, h]
  · by_cases he : s = ""
    · simp [handleStorageChange, hs, he]
    · simp [handleStorageChange, hs, he, hp]
  · have hne : s ≠ "" := by
      intro h0
      rw [h0, hpe] at hp
      exact Option.noConfusion hp
    simp [handleStorageChange, hs, hk, hne, hp]

/-- Witness for C10 at a concrete input: an event for the adapter
key with decodable text updates the state; a removal event does not. -/
theorem handle_storage_change_spec_witness :
    handleStorageChange boolParse "todos"
      { key := some "todos", newValue := some "true" } false = true ∧
    handleStorageChange boolParse "todos"
      { key := some "todos", newValue := none } false = false := by
  constructor
  · exact (handle_storage_change_spec boolParse "todos" (by decide)
      { key := some "todos", newValue := some "true" } false).2.2.2
      "true" true rfl rfl (by decide)
  · exact (handle_storage_change_spec boolParse "todos" (by decide)
      { key := some "todos", newValue := none } false).1 rfl

/-! ### Pagination helper lemmas -/

/-- Embeds `totalPages` is the rational ceiling of `n / ps`. -/
lemma totalPages_eq_ceil (n ps : Nat) (hps : 0 < ps) :
    totalPages n ps = ⌈(n : ℚ) / (ps : ℚ)⌉₊ := by
  rcases Nat.eq_zero_or_pos n with hn | hn
  · subst hn
    have h0 : totalPages 0 ps = 0 := by
      unfold totalPages
      exact Nat.div_eq_of_lt (by omega)
    rw [h0]
    simp
  · apply le_antisymm
    · have h1 : 1 ≤ totalPages n ps := one_le_totalPages n ps hps hn
      have hnat : ps * (totalPages n ps - 1) < n :=
        mul_totalPages_pred_lt n ps hps hn
      have h2 : ((totalPages n ps - 1 : Nat) : ℚ) < (n : ℚ) / (ps : ℚ) := by
        rw [lt_div_iff₀ (by positivity)]
        calc ((totalPages n ps - 1 : Nat) : ℚ) * (ps : ℚ)
            = ((ps * (totalPages n ps - 1) : Nat) : ℚ) := by push_cast; ring
          _ < (n : ℚ) := by exact_mod_cast hnat
      have := Nat.lt_ceil.mpr h2
      omega
    · rw [Nat.ceil_le, div_le_iff₀ (by positivity)]
      have hnat := le_mul_totalPages n ps hps
      calc (n : ℚ) ≤ ((ps * totalPages n ps : Nat) : ℚ) := by exact_mod_cast hnat
        _ = (totalPages n ps : ℚ) * (ps : ℚ) := by push_cast; ring

/-- Every reachable page is at least 1, from any start at least 1. -/
lemma pgFold_ge_one (ps : Nat) (evs : List PgEvent) (start : Nat)
    (h1 : 1 ≤ start) :
    1 ≤ evs.foldl (fun page ev => pgStep ps page ev) start := by
  induction evs generalizing start with
  | nil => exact h1
  | cons ev evs ih =>
    apply ih
    cases ev with
    | loadMore n =>
      simp only [pgStep, loadMore]
      split <;> omega
    | showLess =>
      simp only [pgStep, showLess]
      split <;> omega
    | reset => exact Nat.le_refl 1

/-- With a fixed positive source length, every reachable page stays
at most `totalPages`, from any start within bounds. -/
lemma pgFold_le_totalPages (ps N : Nat) (hps : 0 < ps) (hN : 0 < N)
    (evs : List PgEvent) (hall : ∀ n, PgEvent.loadMore n ∈ evs → n = N)
    (start : Nat) (hstart : start ≤ totalPages N ps) :
    evs.foldl (fun page ev => pgStep ps page ev) start ≤ totalPages N ps := by
  induction evs generalizing start with
  | nil => exact hstart
  | cons ev evs ih =>
    have hall' : ∀ n, PgEvent.loadMore n ∈ evs → n = N := fun n hn =>
      hall n (List.mem_cons_of_mem _ hn)
    apply ih hall'
    cases ev with
    | loadMore n =>
      have hn : n = N := hall n (List.mem_cons_self _ _)
      subst hn
      simp only [pgStep, loadMore]
      split <;> omega
    | showLess =>
      simp only [pgStep, showLess]
      have := one_le_totalPages N ps hps hN
      split <;> omega
    | reset => exact one_le_totalPages N ps hps hN

/-! ### C1: pagination cursor invariant -/

/-- C1, counterexample to the claim as stated.  Advance twice over a
13-item source (reaching page 3), then let the source shrink to 5
items: the reachable state has page 3, while
`ceil(totalItems / pageSize) = ceil(5 / 5) = 1`, so the claimed upper
bound fails for a shrinking source.  (An empty source fails it too:
the initial page 1 exceeds `ceil(0 / 5) = 0`.) -/
theorem pagination_invariant_cex :
    pgRun 5 [PgEvent.loadMore 13, PgEvent.loadMore 13] = 3 ∧
    totalPages 5 5 = 1 ∧
    ¬ (pgRun 5 [PgEvent.loadMore 13, PgEvent.loadMore 13] ≤ totalPages 5 5) ∧
    totalPages 0 5 = 0 ∧ ¬ (pgRun 5 [] ≤ totalPages 0 5) := by
  decide

/-- C1 as amended.  For every reachable state of the pagination view,
under any sequence of `loadMore`/`showLess`/`reset` calls and any
source changes, the 1-based page never falls below 1; and as long as
the source list stays fixed and nonempty, the page also never exceeds
`ceil(totalItems / pageSize)`.  (With an empty or shrunken source the
upper bound can be exceeded, as the counterexample shows.) -/
theorem pagination_cursor_invariant (ps : Nat) (hps : 0 < ps)
    (evs : List PgEvent) :
    1 ≤ pgRun ps evs ∧
    ∀ N, 0 < N → (∀ n, PgEvent.loadMore n ∈ evs → n = N) →
      pgRun ps evs ≤ totalPages N ps := by
  refine ⟨pgFold_ge_one ps evs 1 (Nat.le_refl 1), fun N hN hall => ?_⟩
  exact pgFold_le_totalPages ps N hps hN evs hall 1
    (one_le_totalPages N ps hps hN)

/-- Witness for C1 (amended) at a concrete trace. -/
theorem pagination_cursor_invariant_witness :
    1 ≤ pgRun 5 [PgEvent.loadMore 13, PgEvent.showLess, PgEvent.reset] ∧
    pgRun 5 [PgEvent.loadMore 13, PgEvent.showLess, PgEvent.reset] ≤
      totalPages 13 5 := by
  have h := pagination_cursor_invariant 5 (by decide)
    [PgEvent.loadMore 13, PgEvent.showLess, PgEvent.reset]
  refine ⟨h.1, h.2 13 (by decide) ?_⟩
  intro n hn
  simp only [List.mem_cons, List.not_mem_nil, or_false] at hn
  rcases hn with h1 | h2 | h3
  · exact PgEvent.loadMore.inj h1
  · exact absurd h2 (by simp)
  · exact absurd h3 (by simp)

/-! ### C2: pagination arithmetic -/

/-- C2.  The visible window is the source prefix of length
`min(currentPage × pageSize, sourceLength)`, `totalPages` is the
ceiling of `sourceLength / pageSize`, and `hasNextPage` holds iff
`currentPage < totalPages`; concretely, for a 13-item source at page
size 5 the windows at pages 1, 2, 3 have lengths 5, 10, 13,
`hasNextPage` holds at pages 1 and 2 but not 3, advancing at page 3
stays at page 3, and retreating at page 1 stays at page 1. -/
theorem pagination_arithmetic_spec {α : Type} (l : List α) (ps page : Nat)
    (hps : 0 < ps) :
    (displayedItems l ps page).length = min (page * ps) l.length ∧
    displayedItems l ps page = l.take (min (page * ps) l.length) ∧
    totalPages l.length ps = ⌈(l.length : ℚ) / (ps : ℚ)⌉₊ ∧
    (hasNextPage l.length ps page = true ↔ page < totalPages l.length ps) ∧
    ((displayedItems (List.range 13) 5 1).length = 5 ∧
      (displayedItems (List.range 13) 5 2).length = 10 ∧
      (displayedItems (List.range 13) 5 3).length = 13 ∧
      hasNextPage 13 5 1 = true ∧ hasNextPage 13 5 2 = true ∧
      hasNextPage 13 5 3 = false ∧
      loadMore 13 5 3 = 3 ∧ showLess 1 = 1) := by
  refine ⟨List.length_take _ _, ?_, totalPages_eq_ceil l.length ps hps,
    by simp [hasNextPage], by decide⟩
  rcases le_total (page * ps) l.length with h | h
  · rw [min_eq_left h]
    rfl
  · rw [min_eq_right h, List.take_length]
    exact List.take_of_length_le h

/-- Witness for C2 at a concrete input. -/
theorem pagination_arithmetic_spec_witness :
    (displayedItems (List.range 13) 5 2).length =
      min (2 * 5) (List.range 13).length :=
  (pagination_arithmetic_spec (List.range 13) 5 2 (by decide)).1

end TodoApp
